import Mathlib

/-!
A shallow embedding of `src/main.py`: the review-retrieval tool
`fetch_restaurant_data`, the numeric tool `calculate_overall_score`
(Python floats idealised as real numbers, `math.sqrt` as `Real.sqrt`,
`round(x, 3)` as round-half-to-even on reals, and the `ValueError`
raised by `math.sqrt` on a negative argument as `Option.none`),
the fixed three-stage chat sequence built in `main`, and the
final-answer extraction at the end of `main` (the two `re.search`
patterns modelled as explicit scanners over lists of characters).
Strings are modelled as `List Char`; a Python dict with a single key
is modelled as a one-entry association list.
-/

/-- Python `t.startswith(p)`: `startsWithL p t` checks that `p` is a
literal prefix of `t`, character by character. -/
def startsWithL : List Char → List Char → Bool
  | [], _ => true
  | _ :: _, [] => false
  | p :: ps, c :: cs => p == c && startsWithL ps cs

/-- Python `str.strip()`: remove whitespace from both ends. -/
def stripL (cs : List Char) : List Char :=
  ((cs.dropWhile Char.isWhitespace).reverse.dropWhile Char.isWhitespace).reverse

/-- Python `t.split(".", 1)[1]`: everything after the first dot.
(`main.py` only applies it to lines that contain a dot.) -/
def afterFirstDot (cs : List Char) : List Char :=
  (cs.dropWhile (fun c => c != '.')).drop 1

/-- `fetch_restaurant_data` of `main.py` lines 12-39.  The corpus file is
`none` when `restaurantes.txt` is absent (the `FileNotFoundError` branch)
and `some lines` otherwise, one entry per line of `readlines()`.  The
returned one-key dict is a one-entry association list. -/
def fetch_restaurant_data (restaurant_name : List Char)
    (corpus : Option (List (List Char))) : List (List Char × List (List Char)) :=
  match corpus with
  | none => [(restaurant_name, [])]
  | some lines =>
    [(restaurant_name,
      lines.filterMap (fun line =>
        let t := stripL line
        if startsWithL (restaurant_name ++ ['.']) t then
          some (stripL (afterFirstDot t))
        else none))]

/-- The integer `food_scores[i]**2 * customer_service_scores[i]` of
`main.py` line 68 (out-of-range indices default to `0`; the caller only
uses `i < food.length = service.length`). -/
def radicand (food service : List ℤ) (i : ℕ) : ℤ :=
  food.getD i 0 ^ 2 * service.getD i 0

/-- The accumulation loop of `main.py` lines 65-69:
`total_score = 0.0; for i in range(n): total_score += sqrt(...)`. -/
noncomputable def totalScore (food service : List ℤ) : ℝ :=
  (List.range food.length).foldl
    (fun acc i => acc + Real.sqrt ((radicand food service i : ℝ))) 0

/-- Round a real to the nearest integer, ties to even: the rounding of
Python's builtin `round`. -/
noncomputable def rndHalfEven (x : ℝ) : ℤ :=
  if x < (⌊x⌋ : ℝ) + 1 / 2 then ⌊x⌋
  else if (⌊x⌋ : ℝ) + 1 / 2 < x then ⌊x⌋ + 1
  else if Even ⌊x⌋ then ⌊x⌋ else ⌊x⌋ + 1

/-- Python `round(x, 3)`, idealised over the reals. -/
noncomputable def round3 (x : ℝ) : ℝ :=
  (rndHalfEven (1000 * x) : ℝ) / 1000

/-- `calculate_overall_score` of `main.py` lines 42-73.  The guard of
line 61 returns `0.000`; then the loop takes `sqrt` of each
`food_scores[i]**2 * customer_service_scores[i]`, which in Python raises
`ValueError: math domain error` when that integer is negative — modelled
as `none`.  Otherwise the total is scaled by `1/(n*sqrt(125))*10` and
rounded to three decimals. -/
noncomputable def calculate_overall_score (restaurant_name : List Char)
    (food service : List ℤ) : Option (List Char × ℝ) :=
  if food = [] ∨ service = [] ∨ food.length ≠ service.length then
    some (restaurant_name, 0)
  else if ∀ i ∈ List.range food.length, 0 ≤ radicand food service i then
    some (restaurant_name,
      round3 (totalScore food service * (1 / ((food.length : ℝ) * Real.sqrt 125)) * 10))
  else none

/-- The score formula as §4.2 of the spec words it: for each index `i`
the component `sqrt(food_scores[i]^2 * service_scores[i])`, summed,
multiplied by `1 / (N * sqrt(125))`, multiplied by `10`, rounded to three
decimal places. -/
noncomputable def specScore (food service : List ℤ) : ℝ :=
  round3 ((∑ i in Finset.range food.length,
      Real.sqrt ((food.getD i 0 : ℝ) ^ 2 * (service.getD i 0 : ℝ)))
    * (1 / ((food.length : ℝ) * Real.sqrt 125)) * 10)

/-- One entry of the `chat_sequence` list built in `main.py` lines 235-254. -/
structure ChatStage where
  sender : List Char
  recipient : List Char
  message : List Char
  max_turns : ℕ
  deriving Repr, DecidableEq

/-- The `chat_sequence` literal of `main.py` lines 235-254. -/
def chat_sequence (user_query : List Char) : List ChatStage :=
  [ { sender := "entrypoint_agent".toList,
      recipient := "data_fetch_agent".toList,
      message := "Recupere as avaliações para: ".toList ++ user_query,
      max_turns := 3 },
    { sender := "data_fetch_agent".toList,
      recipient := "review_analysis_agent".toList,
      message := "Analise as avaliações e extraia scores de comida e atendimento usando a escala definida.".toList,
      max_turns := 3 },
    { sender := "review_analysis_agent".toList,
      recipient := "score_agent".toList,
      message := "Calcule a pontuação final do restaurante usando os scores extraídos.".toList,
      max_turns := 3 } ]

/-- One attempt of `re.search(r'(\d+\.\d{3})', s)` anchored at the head of
`cs`: a maximal nonempty digit run, a literal dot, then three digits.
(Only the maximal run can precede the dot, so greedy backtracking never
helps at a fixed position.) -/
def matchScoreAt (cs : List Char) : Option (List Char) :=
  match cs.takeWhile Char.isDigit, cs.dropWhile Char.isDigit with
  | _ :: _, '.' :: a :: b :: c :: _ =>
    if a.isDigit && b.isDigit && c.isDigit then
      some (cs.takeWhile Char.isDigit ++ '.' :: [a, b, c])
    else none
  | _, _ => none

/-- `re.search(r'(\d+\.\d{3})', s)` of `main.py` line 266: the leftmost
position where `matchScoreAt` succeeds. -/
def searchScore : List Char → Option (List Char)
  | [] => none
  | c :: cs =>
    match matchScoreAt (c :: cs) with
    | some m => some m
    | none => searchScore cs

/-- One attempt of `re.search(r'(?:do|da) ([^?]+)\?', q, re.IGNORECASE)`
anchored at the head of `cs`: `do` or `da` (case-insensitive), a space,
then the capture group `[^?]+` (greedy, hence exactly the characters up
to the next `?`, at least one) and the literal `?`. -/
def matchRestaurantAt (cs : List Char) : Option (List Char) :=
  match cs with
  | c1 :: c2 :: ' ' :: rest =>
    if c1.toLower == 'd' && (c2.toLower == 'o' || c2.toLower == 'a') then
      match rest.takeWhile (fun c => c != '?'), rest.dropWhile (fun c => c != '?') with
      | [], _ => none
      | g, '?' :: _ => some g
      | _, _ => none
    else none
  | _ => none

/-- `re.search(r'(?:do|da) ([^?]+)\?', q, re.IGNORECASE)` of `main.py`
line 267: the leftmost position where `matchRestaurantAt` succeeds. -/
def searchRestaurant : List Char → Option (List Char)
  | [] => none
  | c :: cs =>
    match matchRestaurantAt (c :: cs) with
    | some g => some g
    | none => searchRestaurant cs

/-- `main.py` lines 266-274: if both regex searches succeed, the rebuilt
sentence `A avaliação média do <restaurant> é <score>.` (the captured
restaurant stripped); otherwise the last message verbatim. -/
def extractLine (last_message user_query : List Char) : List Char :=
  match searchScore last_message, searchRestaurant user_query with
  | some score, some g =>
    "A avaliação média do ".toList ++ stripL g ++ " é ".toList ++ score ++ ['.']
  | _, _ => last_message

/-- The fixed notice of `main.py` line 276. -/
def noticeMsg : List Char :=
  "Não foi possível processar a consulta adequadamente.".toList

/-- `main.py` lines 260-276: what the program prints after the pipeline,
as a function of the list of per-stage chat histories (each a list of
message contents) and the user query.  `none` means nothing is printed:
the outer `if result and len(result) > 0` has no `else` branch. -/
def resultOutput (result : List (List (List Char))) (user_query : List Char) :
    Option (List Char) :=
  match result.getLast? with
  | none => none
  | some final_chat =>
    match final_chat.getLast? with
    | none => some noticeMsg
    | some last_message => some (extractLine last_message user_query)

/-! ### Helper lemmas -/

lemma startsWithL_iff : ∀ (p t : List Char), startsWithL p t = true ↔ ∃ r, t = p ++ r
  | [], t => by simp [startsWithL]
  | _ :: _, [] => by simp [startsWithL]
  | p :: ps, c :: cs => by
    simp only [startsWithL, Bool.and_eq_true, beq_iff_eq, List.cons_append]
    constructor
    · rintro ⟨rfl, h⟩
      obtain ⟨r, rfl⟩ := (startsWithL_iff ps cs).mp h
      exact ⟨r, rfl⟩
    · rintro ⟨r, hr⟩
      injection hr with h1 h2
      exact ⟨h1.symm, (startsWithL_iff ps cs).mpr ⟨r, h2⟩⟩

lemma fetch_some_eq (name : List Char) (lines : List (List Char)) :
    fetch_restaurant_data name (some lines) =
      [(name,
        ((lines.map stripL).filter (fun t => startsWithL (name ++ ['.']) t)).map
          (fun t => stripL (afterFirstDot t)))] := by
  have h : ∀ ls : List (List Char),
      ls.filterMap (fun line =>
        let t := stripL line
        if startsWithL (name ++ ['.']) t then some (stripL (afterFirstDot t)) else none)
      = ((ls.map stripL).filter (fun t => startsWithL (name ++ ['.']) t)).map
          (fun t => stripL (afterFirstDot t)) := by
    intro ls
    induction ls with
    | nil => rfl
    | cons l ls ih =>
      cases hl : startsWithL (name ++ ['.']) (stripL l) <;>
        simp [List.filterMap_cons, List.filter_cons, hl, ih]
  simp only [fetch_restaurant_data, h]

lemma getD_mem_or_default (s : List ℤ) (i : ℕ) : s.getD i 0 ∈ s ∨ s.getD i 0 = 0 := by
  by_cases h : i < s.length
  · left
    rw [List.getD_eq_getElem?_getD, List.getElem?_eq_getElem h, Option.getD_some]
    exact List.getElem_mem h
  · right
    rw [List.getD_eq_getElem?_getD, List.getElem?_eq_none (le_of_not_lt h), Option.getD_none]

/-! ### Claims about the tool functions (guards, attribution, keys) -/

/-- Claim C2: when the food list is empty, or the service list is empty, or
the two lists have different lengths, `calculate_overall_score` returns the
name paired with `0.000` rather than raising. -/
theorem claim_C2_guard_zero (name : List Char) (food service : List ℤ)
    (h : food = [] ∨ service = [] ∨ food.length ≠ service.length) :
    calculate_overall_score name food service = some (name, 0) := by
  simp only [calculate_overall_score]
  rw [if_pos h]

theorem claim_C2_guard_zero_witness :
    calculate_overall_score "X".toList [1, 2] [1] = some ("X".toList, 0) :=
  claim_C2_guard_zero "X".toList [1, 2] [1] (by decide)

/-- Claim C3: a trimmed corpus line is attributed to the queried name iff it
starts with the literal name followed by a period (exact, case-sensitive
character-by-character comparison); the review text is everything after the
first period, trimmed; and on the corpus with lines `Bob's. Great fries.`
and `Bobby's. Bad service.`, fetching `Bob's` returns only the first line's
review text. -/
theorem claim_C3_attribution :
    (∀ (name : List Char) (lines : List (List Char)),
      fetch_restaurant_data name (some lines) =
        [(name,
          ((lines.map stripL).filter (fun t => startsWithL (name ++ ['.']) t)).map
            (fun t => stripL (afterFirstDot t)))])
    ∧ (∀ (name t : List Char),
        startsWithL (name ++ ['.']) t = true ↔ ∃ r, t = (name ++ ['.']) ++ r)
    ∧ fetch_restaurant_data "Bob's".toList
        (some ["Bob's. Great fries.".toList, "Bobby's. Bad service.".toList])
        = [("Bob's".toList, ["Great fries.".toList])] :=
  ⟨fetch_some_eq, fun name t => startsWithL_iff (name ++ ['.']) t, by decide⟩

/-- Claim C8: a missing corpus file, and a corpus in which no line matches
the queried name, both produce the mapping `{entity_name: []}`. -/
theorem claim_C8_soft_missing :
    (∀ name : List Char, fetch_restaurant_data name none = [(name, [])])
    ∧ (∀ (name : List Char) (lines : List (List Char)),
        (∀ l ∈ lines, startsWithL (name ++ ['.']) (stripL l) = false) →
        fetch_restaurant_data name (some lines) = [(name, [])]) := by
  refine ⟨fun name => rfl, fun name lines h => ?_⟩
  simp only [fetch_restaurant_data]
  refine congrArg (fun x => [(name, x)]) ?_
  rw [List.filterMap_eq_nil_iff]
  intro l hl
  simp [h l hl]

theorem claim_C8_soft_missing_witness :
    fetch_restaurant_data "Unknown".toList (some ["Veloz. Comida boa.".toList])
      = [("Unknown".toList, [])] :=
  claim_C8_soft_missing.2 "Unknown".toList ["Veloz. Comida boa.".toList] (by decide)

/-- Claim C10: for every corpus and queried name, the returned dictionary
has exactly one key, the queried name itself. -/
theorem claim_C10_single_key (name : List Char) (corpus : Option (List (List Char))) :
    (fetch_restaurant_data name corpus).map Prod.fst = [name] := by
  cases corpus <;> rfl

/-! ### Claim C4: totality (corrected) -/

/-- Claim C4 counterexample: on food `[2]` and service `[-3]` the loop calls
`math.sqrt(4 * -3)`, which raises `ValueError` in Python — the model returns
`none`, so `calculate_overall_score` is not total on negative service
scores. -/
theorem claim_C4_counterexample :
    calculate_overall_score "A".toList [2] [-3] = none := by
  simp only [calculate_overall_score]
  rw [if_neg (by decide)]
  rw [if_neg (by decide)]

/-- Claim C4 as amended: `calculate_overall_score` always returns a value
when every service score is non-negative (the guard handles empty and
mismatched lists first), and `fetch_restaurant_data` always returns a
one-entry mapping for its queried name. -/
theorem claim_C4_totality :
    (∀ (name : List Char) (food service : List ℤ), (∀ x ∈ service, 0 ≤ x) →
      ∃ r, calculate_overall_score name food service = some r)
    ∧ (∀ (name : List Char) (corpus : Option (List (List Char))),
        ∃ revs, fetch_restaurant_data name corpus = [(name, revs)]) := by
  constructor
  · intro name food service hs
    by_cases hg : food = [] ∨ service = [] ∨ food.length ≠ service.length
    · exact ⟨(name, 0), by simp only [calculate_overall_score]; rw [if_pos hg]⟩
    · have hall : ∀ i ∈ List.range food.length, 0 ≤ radicand food service i := by
        intro i _
        have hb : 0 ≤ service.getD i 0 := by
          rcases getD_mem_or_default service i with h | h
          · exact hs _ h
          · rw [h]
        exact mul_nonneg (sq_nonneg _) hb
      exact ⟨_, by simp only [calculate_overall_score]; rw [if_neg hg, if_pos hall]⟩
  · intro name corpus
    cases corpus <;> exact ⟨_, rfl⟩

theorem claim_C4_totality_witness :
    ∃ r, calculate_overall_score "X".toList [1] [4] = some r :=
  claim_C4_totality.1 "X".toList [1] [4] (by decide)

/-! ### Claims C5 and C6: the final-answer extraction (both corrected) -/

/-- Claim C5 counterexample: on a query where the entity pattern
`(?:do|da) ([^?]+)\?` does match and a final message containing a
three-decimal number, the program emits the Portuguese sentence
`A avaliação média do <entity> é <score>.`, not the spec's canonical
sentence `The average rating of <entity> is <score>.`. -/
theorem claim_C5_counterexample :
    resultOutput [["A nota final: 7.123".toList]] "Qual é a nota do Bob's?".toList
      = some "A avaliação média do Bob's é 7.123.".toList
    ∧ "A avaliação média do Bob's é 7.123.".toList
      ≠ "The average rating of Bob's is 7.123.".toList := by
  constructor
  · decide
  · decide

/-- Claim C5 as amended: when both the numeric search and the entity search
succeed, the printed line is `A avaliação média do <entity> é <score>.`
with the captured entity stripped; the spec's concrete example query
`What is the score of Bob's?` has no `(?:do|da) ([^?]+)\?` match, so the
final message is printed verbatim, which for final message
`The average rating of Bob's is 7.123.` is exactly that sentence. -/
theorem claim_C5_extraction :
    (∀ (last_message user_query score g : List Char),
      searchScore last_message = some score →
      searchRestaurant user_query = some g →
      extractLine last_message user_query =
        "A avaliação média do ".toList ++ stripL g ++ " é ".toList ++ score ++ ['.'])
    ∧ resultOutput [["The average rating of Bob's is 7.123.".toList]]
        "What is the score of Bob's?".toList
        = some "The average rating of Bob's is 7.123.".toList := by
  constructor
  · intro last_message user_query score g h1 h2
    simp only [extractLine, h1, h2]
  · decide

theorem claim_C5_extraction_witness :
    extractLine "x 7.123".toList "do X?".toList =
      "A avaliação média do ".toList ++ stripL "X".toList ++ " é ".toList
        ++ "7.123".toList ++ ['.'] :=
  claim_C5_extraction.1 "x 7.123".toList "do X?".toList "7.123".toList "X".toList
    (by decide) (by decide)

/-- Claim C6 counterexample: when the list of chat results is empty, the
outer `if result and len(result) > 0` of `main.py` line 260 has no `else`
branch, so nothing at all is printed — not one line. -/
theorem claim_C6_counterexample : resultOutput [] [] = none := rfl

/-- Claim C6 as amended: the extraction step is total; whenever the list of
chat results is non-empty it prints exactly one line (never raising), and
when the final chat has no messages that line is the fixed notice; but when
the list of chat results itself is empty, nothing is printed. -/
theorem claim_C6_one_line :
    (∀ (result : List (List (List Char))) (user_query : List Char), result ≠ [] →
      ∃ line, resultOutput result user_query = some line)
    ∧ (∀ (pre : List (List (List Char))) (user_query : List Char),
        resultOutput (pre ++ [[]]) user_query = some noticeMsg) := by
  constructor
  · intro result user_query h
    cases hres : result.getLast? with
    | none => exact absurd (List.getLast?_eq_none_iff.mp hres) h
    | some final_chat =>
      cases hlast : final_chat.getLast? with
      | none => exact ⟨noticeMsg, by simp only [resultOutput, hres, hlast]⟩
      | some last_message =>
        exact ⟨extractLine last_message user_query,
          by simp only [resultOutput, hres, hlast]⟩
  · intro pre user_query
    simp only [resultOutput, List.getLast?_concat, List.getLast?_nil]

theorem claim_C6_one_line_witness :
    resultOutput [[]] [] = some noticeMsg := by
  have h := claim_C6_one_line.2 [] []
  simpa using h

/-! ### Claim C9: the fixed three-stage pipeline -/

/-- Claim C9: the chat sequence has exactly three stages, wired in the fixed
order entrypoint→fetch, fetch→analyze, analyze→score, and every stage's
`max_turns` is 3. -/
theorem claim_C9_three_stages (user_query : List Char) :
    (chat_sequence user_query).length = 3
    ∧ (chat_sequence user_query).map (fun st => (st.sender, st.recipient)) =
        [("entrypoint_agent".toList, "data_fetch_agent".toList),
         ("data_fetch_agent".toList, "review_analysis_agent".toList),
         ("review_analysis_agent".toList, "score_agent".toList)]
    ∧ ∀ st ∈ chat_sequence user_query, st.max_turns = 3 := by
  refine ⟨rfl, rfl, ?_⟩
  intro st hst
  simp only [chat_sequence, List.mem_cons, List.not_mem_nil, or_false] at hst
  rcases hst with h | h | h <;> subst h <;> rfl

/-! ### Real-number helper lemmas for the score kernel -/

lemma sqrt125_pos : 0 < Real.sqrt 125 := Real.sqrt_pos.mpr (by norm_num)

lemma sqrt125_lb : (11.1795 : ℝ) < Real.sqrt 125 :=
  (Real.lt_sqrt (by norm_num)).mpr (by norm_num)

lemma sqrt125_ub : Real.sqrt 125 < 11.1804 :=
  (Real.sqrt_lt' (by norm_num)).mpr (by norm_num)

lemma rhe_ge {x : ℝ} {m : ℤ} (h : (m : ℝ) ≤ x) : m ≤ rndHalfEven x := by
  have hf : m ≤ ⌊x⌋ := Int.le_floor.mpr h
  unfold rndHalfEven
  split_ifs <;> omega

lemma rhe_le {x : ℝ} {m : ℤ} (h : x ≤ (m : ℝ)) : rndHalfEven x ≤ m := by
  have hf : ⌊x⌋ ≤ m := by
    have := Int.floor_mono h
    simpa using this
  have hup : ¬(x < (⌊x⌋ : ℝ) + 1 / 2) → ⌊x⌋ + 1 ≤ m := by
    intro h1
    have hle : (⌊x⌋ : ℝ) + 1 / 2 ≤ (m : ℝ) := le_trans (not_lt.mp h1) h
    have : (⌊x⌋ : ℝ) < (m : ℝ) := by linarith
    have : ⌊x⌋ < m := by exact_mod_cast this
    omega
  unfold rndHalfEven
  split_ifs with h1 h2 h3
  exacts [hf, hup h1, hf, hup h1]

lemma rhe_between_lo {x : ℝ} {m : ℤ} (h1 : (m : ℝ) ≤ x) (h2 : x < (m : ℝ) + 1 / 2) :
    rndHalfEven x = m := by
  have hf : ⌊x⌋ = m := Int.floor_eq_iff.mpr ⟨h1, by linarith⟩
  unfold rndHalfEven
  rw [hf, if_pos h2]

lemma rhe_between_hi {x : ℝ} {m : ℤ} (h1 : (m : ℝ) + 1 / 2 < x) (h2 : x < (m : ℝ) + 1) :
    rndHalfEven x = m + 1 := by
  have hf : ⌊x⌋ = m := Int.floor_eq_iff.mpr ⟨by linarith, by linarith⟩
  unfold rndHalfEven
  rw [hf, if_neg (by linarith), if_pos h1]

lemma le_round3_of_le {x : ℝ} {m : ℤ} (h : (m : ℝ) ≤ 1000 * x) :
    (m : ℝ) / 1000 ≤ round3 x := by
  unfold round3
  have h2 : (m : ℝ) ≤ ((rndHalfEven (1000 * x)) : ℝ) := by exact_mod_cast rhe_ge h
  linarith

lemma round3_le_of_le {x : ℝ} {m : ℤ} (h : 1000 * x ≤ (m : ℝ)) :
    round3 x ≤ (m : ℝ) / 1000 := by
  unfold round3
  have h2 : ((rndHalfEven (1000 * x)) : ℝ) ≤ (m : ℝ) := by exact_mod_cast rhe_le h
  linarith

lemma foldl_add_eq (g : ℕ → ℝ) :
    ∀ (l : List ℕ) (a : ℝ), l.foldl (fun acc i => acc + g i) a = a + (l.map g).sum
  | [], a => by simp
  | i :: l, a => by
    simp only [List.foldl_cons, List.map_cons, List.sum_cons, foldl_add_eq g l]
    ring

lemma range_map_sum (g : ℕ → ℝ) (n : ℕ) :
    ((List.range n).map g).sum = ∑ i in Finset.range n, g i := by
  induction n with
  | zero => simp
  | succ n ih =>
    rw [List.range_succ, Finset.sum_range_succ, List.map_append, List.sum_append]
    simp [ih]

lemma totalScore_eq_sum (food service : List ℤ) :
    totalScore food service
      = ∑ i in Finset.range food.length, Real.sqrt ((radicand food service i : ℝ)) := by
  unfold totalScore
  rw [foldl_add_eq (fun i => Real.sqrt ((radicand food service i : ℝ))), range_map_sum]
  simp

lemma score_guard_false {food service : List ℤ} (hne : food ≠ [])
    (hlen : food.length = service.length) :
    ¬(food = [] ∨ service = [] ∨ food.length ≠ service.length) := by
  push_neg
  refine ⟨hne, ?_, hlen⟩
  intro hserv
  apply hne
  apply List.length_eq_zero.mp
  rw [hlen, hserv, List.length_nil]

lemma calc_singleton (name : List Char) (a b : ℤ) (hab : 0 ≤ a ^ 2 * b) :
    calculate_overall_score name [a] [b]
      = some (name, round3 (Real.sqrt ((a : ℝ) ^ 2 * (b : ℝ)) * (1 / Real.sqrt 125) * 10)) := by
  simp only [calculate_overall_score]
  rw [if_neg (by simp), if_pos ?hpos]
  case hpos =>
    intro i hi
    rw [List.mem_range] at hi
    have hz : i = 0 := Nat.lt_one_iff.mp (by simpa using hi)
    subst hz
    simpa [radicand] using hab
  refine congrArg (fun v => some (name, v)) ?_
  have h1 : totalScore [a] [b] = Real.sqrt ((a : ℝ) ^ 2 * (b : ℝ)) := by
    rw [totalScore_eq_sum]
    rw [show ([a] : List ℤ).length = 1 from rfl, Finset.sum_range_one]
    congr 1
    push_cast [radicand]
    norm_num
  rw [h1, show (([a] : List ℤ).length : ℝ) = 1 by norm_num, one_mul]

lemma radicand_nonneg {service : List ℤ} (hs : ∀ x ∈ service, 0 ≤ x)
    (food : List ℤ) (i : ℕ) : 0 ≤ radicand food service i := by
  have hb : 0 ≤ service.getD i 0 := by
    rcases getD_mem_or_default service i with h | h
    · exact hs _ h
    · rw [h]
  exact mul_nonneg (sq_nonneg _) hb

/-! ### Claim C1: the score formula and the 5.367 example -/

/-- Claim C1: for non-empty equal-length score lists (service scores
non-negative, as the square root demands), `calculate_overall_score`
returns the name paired with the spec formula
`round(sum_i sqrt(food[i]^2*service[i]) * (1/(N*sqrt(125))) * 10, 3)`;
and on `[3]`, `[4]` the returned value is exactly `5.367`. -/
theorem claim_C1_formula :
    (∀ (name : List Char) (food service : List ℤ),
      food ≠ [] → food.length = service.length → (∀ x ∈ service, 0 ≤ x) →
      calculate_overall_score name food service = some (name, specScore food service))
    ∧ (∀ name : List Char,
        calculate_overall_score name [3] [4] = some (name, 5.367)) := by
  constructor
  · intro name food service hne hlen hs
    have hall : ∀ i ∈ List.range food.length, 0 ≤ radicand food service i :=
      fun i _ => radicand_nonneg hs food i
    simp only [calculate_overall_score]
    rw [if_neg (score_guard_false hne hlen), if_pos hall]
    refine congrArg (fun v => some (name, v)) ?_
    unfold specScore
    congr 1
    rw [totalScore_eq_sum]
    refine congrArg (fun z => z * (1 / ((food.length : ℝ) * Real.sqrt 125)) * 10) ?_
    refine Finset.sum_congr rfl fun i _ => ?_
    congr 1
    push_cast [radicand]
    ring
  · intro name
    rw [calc_singleton name 3 4 (by norm_num)]
    refine congrArg (fun v => some (name, v)) ?_
    have hs6 : Real.sqrt ((3 : ℝ) ^ 2 * (4 : ℝ)) = 6 := by
      rw [show ((3 : ℝ) ^ 2 * (4 : ℝ)) = 6 ^ 2 by norm_num]
      exact Real.sqrt_sq (by norm_num)
    push_cast
    rw [hs6]
    unfold round3
    have harg : 1000 * ((6 : ℝ) * (1 / Real.sqrt 125) * 10) = 60000 / Real.sqrt 125 := by
      field_simp
      norm_num
    rw [harg]
    have h1 : ((5366 : ℤ) : ℝ) + 1 / 2 < 60000 / Real.sqrt 125 := by
      rw [lt_div_iff₀ sqrt125_pos]
      push_cast
      nlinarith [sqrt125_ub]
    have h2 : 60000 / Real.sqrt 125 < ((5366 : ℤ) : ℝ) + 1 := by
      rw [div_lt_iff₀ sqrt125_pos]
      push_cast
      nlinarith [sqrt125_lb]
    rw [rhe_between_hi h1 h2]
    norm_num

theorem claim_C1_formula_witness :
    calculate_overall_score "X".toList [2] [2] = some ("X".toList, specScore [2] [2]) :=
  claim_C1_formula.1 "X".toList [2] [2] (by decide) (by decide) (by decide)

/-! ### Claim C7: the output interval -/

lemma radicand_bounds {food service : List ℤ} (hlen : food.length = service.length)
    (hfood : ∀ x ∈ food, 1 ≤ x ∧ x ≤ 5) (hserv : ∀ x ∈ service, 1 ≤ x ∧ x ≤ 5)
    {i : ℕ} (hi : i < food.length) :
    1 ≤ radicand food service i ∧ radicand food service i ≤ 125 := by
  have hfi : food.getD i 0 ∈ food := by
    rw [List.getD_eq_getElem?_getD, List.getElem?_eq_getElem hi, Option.getD_some]
    exact List.getElem_mem hi
  have hi2 : i < service.length := hlen ▸ hi
  have hsi : service.getD i 0 ∈ service := by
    rw [List.getD_eq_getElem?_getD, List.getElem?_eq_getElem hi2, Option.getD_some]
    exact List.getElem_mem hi2
  obtain ⟨hf1, hf5⟩ := hfood _ hfi
  obtain ⟨hs1, hs5⟩ := hserv _ hsi
  unfold radicand
  constructor
  · have ha1 : (1 : ℤ) ≤ food.getD i 0 ^ 2 := by nlinarith
    calc (1 : ℤ) = 1 * 1 := by norm_num
    _ ≤ food.getD i 0 ^ 2 * service.getD i 0 :=
        mul_le_mul ha1 hs1 (by norm_num) (sq_nonneg _)
  · have ha2 : food.getD i 0 ^ 2 ≤ 25 := by nlinarith
    calc food.getD i 0 ^ 2 * service.getD i 0 ≤ 25 * 5 :=
        mul_le_mul ha2 hs5 (by linarith) (by norm_num)
    _ = 125 := by norm_num

lemma totalScore_bounds {food service : List ℤ} (hlen : food.length = service.length)
    (hfood : ∀ x ∈ food, 1 ≤ x ∧ x ≤ 5) (hserv : ∀ x ∈ service, 1 ≤ x ∧ x ≤ 5) :
    (food.length : ℝ) ≤ totalScore food service
    ∧ totalScore food service ≤ (food.length : ℝ) * Real.sqrt 125 := by
  rw [totalScore_eq_sum]
  constructor
  · calc (food.length : ℝ) = ∑ _i in Finset.range food.length, (1 : ℝ) := by simp
    _ ≤ ∑ i in Finset.range food.length, Real.sqrt ((radicand food service i : ℝ)) := by
        refine Finset.sum_le_sum fun i hi => ?_
        rw [Finset.mem_range] at hi
        have h1 := (radicand_bounds hlen hfood hserv hi).1
        calc (1 : ℝ) = Real.sqrt 1 := Real.sqrt_one.symm
        _ ≤ Real.sqrt ((radicand food service i : ℝ)) :=
            Real.sqrt_le_sqrt (by exact_mod_cast h1)
  · calc ∑ i in Finset.range food.length, Real.sqrt ((radicand food service i : ℝ))
        ≤ ∑ _i in Finset.range food.length, Real.sqrt 125 := by
          refine Finset.sum_le_sum fun i hi => ?_
          rw [Finset.mem_range] at hi
          exact Real.sqrt_le_sqrt
            (by exact_mod_cast (radicand_bounds hlen hfood hserv hi).2)
    _ = (food.length : ℝ) * Real.sqrt 125 := by
        rw [Finset.sum_const, Finset.card_range, nsmul_eq_mul]

/-- Claim C7: for non-empty equal-length lists with every score in `[1,5]`,
the value returned by `calculate_overall_score` lies in `[0.894, 10.000]`,
and the two endpoints are attained at all-(1,1) and all-(5,5) (here with a
single pair). -/
theorem claim_C7_bounds :
    (∀ (name : List Char) (food service : List ℤ),
      food ≠ [] → food.length = service.length →
      (∀ x ∈ food, 1 ≤ x ∧ x ≤ 5) → (∀ x ∈ service, 1 ≤ x ∧ x ≤ 5) →
      ∃ v, calculate_overall_score name food service = some (name, v)
        ∧ 0.894 ≤ v ∧ v ≤ 10)
    ∧ (∀ name : List Char, calculate_overall_score name [1] [1] = some (name, 0.894))
    ∧ (∀ name : List Char, calculate_overall_score name [5] [5] = some (name, 10)) := by
  refine ⟨?_, ?_, ?_⟩
  · intro name food service hne hlen hfood hserv
    have hs0 : ∀ x ∈ service, 0 ≤ x := fun x hx => le_trans zero_le_one (hserv x hx).1
    have hall : ∀ i ∈ List.range food.length, 0 ≤ radicand food service i :=
      fun i _ => radicand_nonneg hs0 food i
    have hn : (0 : ℝ) < (food.length : ℝ) := by
      have : 0 < food.length := List.length_pos.mpr hne
      exact_mod_cast this
    have hNt : 0 < (food.length : ℝ) * Real.sqrt 125 := mul_pos hn sqrt125_pos
    obtain ⟨hlo, hhi⟩ := totalScore_bounds hlen hfood hserv
    refine ⟨round3 (totalScore food service
        * (1 / ((food.length : ℝ) * Real.sqrt 125)) * 10), ?_, ?_, ?_⟩
    · simp only [calculate_overall_score]
      rw [if_neg (score_guard_false hne hlen), if_pos hall]
    · have e : 1000 * (totalScore food service
          * (1 / ((food.length : ℝ) * Real.sqrt 125)) * 10)
          = 10000 * totalScore food service / ((food.length : ℝ) * Real.sqrt 125) := by
        field_simp
        ring
      have hp : (food.length : ℝ) * Real.sqrt 125 ≤ 11.1804 * (food.length : ℝ) := by
        nlinarith [sqrt125_ub, hn.le]
      have hraw : ((894 : ℤ) : ℝ) ≤ 1000 * (totalScore food service
          * (1 / ((food.length : ℝ) * Real.sqrt 125)) * 10) := by
        rw [e, le_div_iff₀ hNt]
        push_cast
        nlinarith [hlo, hp, hn.le]
      calc (0.894 : ℝ) = ((894 : ℤ) : ℝ) / 1000 := by norm_num
      _ ≤ _ := le_round3_of_le hraw
    · have e : 1000 * (totalScore food service
          * (1 / ((food.length : ℝ) * Real.sqrt 125)) * 10)
          = 10000 * totalScore food service / ((food.length : ℝ) * Real.sqrt 125) := by
        field_simp
        ring
      have hraw : 1000 * (totalScore food service
          * (1 / ((food.length : ℝ) * Real.sqrt 125)) * 10) ≤ ((10000 : ℤ) : ℝ) := by
        rw [e, div_le_iff₀ hNt]
        push_cast
        nlinarith [hhi]
      calc round3 _ ≤ ((10000 : ℤ) : ℝ) / 1000 := round3_le_of_le hraw
      _ = 10 := by norm_num
  · intro name
    rw [calc_singleton name 1 1 (by norm_num)]
    refine congrArg (fun v => some (name, v)) ?_
    have h1 : Real.sqrt ((1 : ℝ) ^ 2 * (1 : ℝ)) = 1 := by
      rw [show ((1 : ℝ) ^ 2 * (1 : ℝ)) = 1 by norm_num]
      exact Real.sqrt_one
    push_cast
    rw [h1]
    unfold round3
    have harg : 1000 * ((1 : ℝ) * (1 / Real.sqrt 125) * 10) = 10000 / Real.sqrt 125 := by
      field_simp
      norm_num
    rw [harg]
    have hA : ((894 : ℤ) : ℝ) ≤ 10000 / Real.sqrt 125 := by
      rw [le_div_iff₀ sqrt125_pos]
      push_cast
      nlinarith [sqrt125_ub]
    have hB : 10000 / Real.sqrt 125 < ((894 : ℤ) : ℝ) + 1 / 2 := by
      rw [div_lt_iff₀ sqrt125_pos]
      push_cast
      nlinarith [sqrt125_lb]
    rw [rhe_between_lo hA hB]
    norm_num
  · intro name
    rw [calc_singleton name 5 5 (by norm_num)]
    refine congrArg (fun v => some (name, v)) ?_
    have h5 : Real.sqrt ((5 : ℝ) ^ 2 * (5 : ℝ)) = Real.sqrt 125 := by norm_num
    push_cast
    rw [h5]
    have ht : Real.sqrt 125 ≠ 0 := ne_of_gt sqrt125_pos
    have harg : Real.sqrt 125 * (1 / Real.sqrt 125) * 10 = 10 := by
      field_simp
    rw [harg]
    unfold round3
    have hA : ((10000 : ℤ) : ℝ) ≤ 1000 * (10 : ℝ) := by norm_num
    have hB : 1000 * (10 : ℝ) < ((10000 : ℤ) : ℝ) + 1 / 2 := by norm_num
    rw [rhe_between_lo hA hB]
    norm_num

theorem claim_C7_bounds_witness :
    ∃ v, calculate_overall_score "X".toList [2] [3] = some ("X".toList, v)
      ∧ (0.894 : ℝ) ≤ v ∧ v ≤ 10 :=
  claim_C7_bounds.1 "X".toList [2] [3] (by decide) (by decide) (by decide) (by decide)
